import Mathlib

/-!
Verification of the minio bootstrap/reconciliation core: a shallow
embedding of `initObjectLayer` and `cleanupDir` (Go, package `main`),
together with the storage-backend capability they consume.

Backend calls are modelled through an explicit `StorageAPI` record of
pure functions; the recursive tree walk `delFunc` is embedded with an
explicit fuel parameter (`none` = fuel exhausted, `some` = the Go
function returned).  Every run also produces the trace of backend
operations it issued, so that frame and "cleanup actually ran" claims
can be stated.  Goroutine fan-out in `initObjectLayer` writes disjoint
slots of a pre-sized slice and joins before reading, so it is embedded
as a deterministic per-index map.
-/

/-- Backend-local error values.  The Go code compares errors against the
sentinels `errVolumeExists`, `errDiskNotFound` and `errFileNotFound` by
identity; `other` stands for any distinct further error value. -/
inductive StorageErr where
  | volumeExists
  | diskNotFound
  | fileNotFound
  | other (code : Nat)
deriving DecidableEq

/-- One backend operation issued during a run (the instrumentation trace). -/
inductive Op where
  | makeVolOp (volume : String)
  | listDirOp (volume : String) (path : String)
  | deleteFileOp (volume : String) (path : String)
deriving DecidableEq

/-- The storage backend capability (`StorageAPI`): create a volume, list a
directory, delete a file.  `none` / `Except.ok` model a nil Go error. -/
structure StorageAPI where
  makeVol : String → Option StorageErr
  listDir : String → String → Except StorageErr (List String)
  deleteFile : String → String → Option StorageErr

/-- The path separator constant `slashSeparator = "/"`. -/
def slashSeparator : String := "/"

/-- Go `strings.HasSuffix(s, slashSeparator)` for the one-character
separator: the last character of `s` is `'/'`. -/
def hasSlashSuffix (s : String) : Bool :=
  s.data.getLast? == some '/'

/-- Modelled from the spec: `pathJoin` ("recurse into
`join(currentPath, entry)`") joins two path components, inserting the
separator when the left component does not already end in it.  The Go
helper `pathJoin` is not part of the provided sources. -/
def pathJoin (a b : String) : String :=
  if hasSlashSuffix a then a ++ b else a ++ slashSeparator ++ b

/-- Modelled from the spec: `retainSlash` ("normalize `rootPath` to always
end in the path separator").  The Go helper is not part of the provided
sources. -/
def retainSlash (s : String) : String :=
  if hasSlashSuffix s then s else s ++ slashSeparator

/-- Modelled from the spec: the reserved metadata volume name, an opaque
string constant supplied by the surrounding system. -/
def minioMetaBucket : String := ".minio.sys"

/-- Modelled from the spec: the reserved temporary-object path within the
metadata volume, an opaque string constant. -/
def tmpMetaPrefix : String := "tmp"

/-- Modelled from the spec: an object-layer error carries the raw backend
error together with the volume/path context it was translated with. -/
structure ObjectErr where
  raw : StorageErr
  volume : String
  path : String
deriving DecidableEq

/-- Modelled from the spec: the Error Translator `toObjectErr` wraps a
backend error with its volume/path context, surfacing the kind verbatim. -/
def toObjectErr (e : StorageErr) (volume path : String) : ObjectErr :=
  ⟨e, volume, path⟩

/-- The loop body of `delFunc`: `for _, entry := range entries`, recursing
via `child` into `pathJoin(entryPath, entry)` and aborting on the first
non-nil outcome.  Traces of successful children are concatenated. -/
def delLoop (child : String → Option (Option StorageErr × List Op))
    (entryPath : String) : List String → Option (Option StorageErr × List Op)
  | [] => some (none, [])
  | entry :: rest =>
    match child (pathJoin entryPath entry) with
    | none => none
    | some (some e, ops) => some (some e, ops)
    | some (none, ops) =>
      (delLoop child entryPath rest).map (fun r => (r.1, ops ++ r.2))

/-- The recursive closure `delFunc` of `cleanupDir`, with explicit fuel.
A path without a trailing separator is a file: delete it and return that
outcome.  Otherwise list the directory; a `fileNotFound` listing error is
absorbed as success, any other listing error is returned, and on success
each entry is processed in order by `delLoop`. -/
def delFunc (storage : StorageAPI) (volume : String) :
    Nat → String → Option (Option StorageErr × List Op)
  | 0, _ => none
  | fuel + 1, entryPath =>
    if hasSlashSuffix entryPath = false then
      some (storage.deleteFile volume entryPath, [Op.deleteFileOp volume entryPath])
    else
      match storage.listDir volume entryPath with
      | Except.error e =>
        if e = StorageErr.fileNotFound then
          some (none, [Op.listDirOp volume entryPath])
        else
          some (some e, [Op.listDirOp volume entryPath])
      | Except.ok entries =>
        (delLoop (delFunc storage volume fuel) entryPath entries).map
          (fun r => (r.1, Op.listDirOp volume entryPath :: r.2))

/-- Go `cleanupDir(storage, volume, dirPath)`: run `delFunc` on the
separator-normalized root `retainSlash(pathJoin(dirPath))` (the one-element
`pathJoin` is modelled, from the spec, as the identity). -/
def cleanupDir (fuel : Nat) (storage : StorageAPI) (volume dirPath : String) :
    Option (Option StorageErr × List Op) :=
  delFunc storage volume fuel (retainSlash dirPath)

/-- One per-backend unit of `initObjectLayer`: `MakeVol(minioMetaBucket)`,
treating `errVolumeExists` and `errDiskNotFound` as non-fatal, then
`cleanupDir(disk, minioMetaBucket, tmpMetaPrefix)`; the recorded outcome is
the `MakeVol` error on a hard failure, else the cleanup outcome. -/
def initUnit (fuel : Nat) (disk : StorageAPI) :
    Option (Option StorageErr × List Op) :=
  match disk.makeVol minioMetaBucket with
  | some e =>
    if e ≠ StorageErr.volumeExists ∧ e ≠ StorageErr.diskNotFound then
      some (some e, [Op.makeVolOp minioMetaBucket])
    else
      (cleanupDir fuel disk minioMetaBucket tmpMetaPrefix).map
        (fun r => (r.1, Op.makeVolOp minioMetaBucket :: r.2))
  | none =>
    (cleanupDir fuel disk minioMetaBucket tmpMetaPrefix).map
      (fun r => (r.1, Op.makeVolOp minioMetaBucket :: r.2))

/-- Run one `initUnit` per backend, collecting the per-index outcomes
(the Go `errs` slice is written at disjoint indices and read after the
join barrier, so the fan-out is order-independent). -/
def runUnits (fuel : Nat) : List StorageAPI →
    Option (List (Option StorageErr × List Op))
  | [] => some []
  | d :: ds =>
    match initUnit fuel d, runUnits fuel ds with
    | some r, some rs => some (r :: rs)
    | _, _ => none

/-- The result-scan loop of `initObjectLayer`: skip `nil` entries and
return the first non-nil error. -/
def firstNonNil : List (Option StorageErr) → Option StorageErr
  | [] => none
  | none :: rest => firstNonNil rest
  | some e :: _ => some e

/-- Go `initObjectLayer(storageDisks...)`: run every per-backend unit,
wait for all of them, then return the first recorded non-nil error
translated with `(minioMetaBucket, tmpMetaPrefix)` as context, or nil. -/
def initObjectLayer (fuel : Nat) (storageDisks : List StorageAPI) :
    Option (Option ObjectErr) :=
  match runUnits fuel storageDisks with
  | none => none
  | some results =>
    some ((firstNonNil (results.map Prod.fst)).map
      (fun e => toObjectErr e minioMetaBucket tmpMetaPrefix))

/-- The paths of the `DeleteFile` calls recorded in a trace. -/
def deletedPaths (ops : List Op) : List String :=
  ops.filterMap fun op =>
    match op with
    | Op.deleteFileOp _ p => some p
    | _ => none

/-- A synthetic backend holding the tree `a/`, `a/b` (file), `a/c/` (dir),
`a/c/d` (file); every delete succeeds and every other listing reports
`fileNotFound`. -/
def demoBackend : StorageAPI where
  makeVol := fun _ => none
  listDir := fun _ p =>
    if p = "a/" then Except.ok ["b", "c/"]
    else if p = "a/c/" then Except.ok ["d"]
    else Except.error StorageErr.fileNotFound
  deleteFile := fun _ _ => none

/-- The same tree as `demoBackend`, with the entries of `a/` listed in the
opposite order. -/
def permBackend : StorageAPI where
  makeVol := fun _ => none
  listDir := fun _ p =>
    if p = "a/" then Except.ok ["c/", "b"]
    else if p = "a/c/" then Except.ok ["d"]
    else Except.error StorageErr.fileNotFound
  deleteFile := fun _ _ => none

/-- A descent measure for the `demoBackend` tree. -/
def demoHeight (p : String) : Nat :=
  if p = "a/" then 2 else if p = "a/c/" then 1 else 0

/-- A backend that initializes cleanly: volume creation succeeds and the
temp subtree does not exist. -/
def okDisk : StorageAPI where
  makeVol := fun _ => none
  listDir := fun _ _ => Except.error StorageErr.fileNotFound
  deleteFile := fun _ _ => none

/-- A backend whose volume creation hard-fails with `other code`. -/
def failDisk (code : Nat) : StorageAPI where
  makeVol := fun _ => some (StorageErr.other code)
  listDir := fun _ _ => Except.error StorageErr.fileNotFound
  deleteFile := fun _ _ => none

/-- A backend whose volume already exists and whose temp subtree is absent. -/
def volExistsDisk : StorageAPI where
  makeVol := fun _ => some StorageErr.volumeExists
  listDir := fun _ _ => Except.error StorageErr.fileNotFound
  deleteFile := fun _ _ => none

/-- A backend holding one temp file `t/f` that was already deleted by a
previous partial run: its listing still reports the entry, but deleting
the leaf reports `fileNotFound`. -/
def staleDisk : StorageAPI where
  makeVol := fun _ => none
  listDir := fun _ p =>
    if p = "t/" then Except.ok ["f"] else Except.error StorageErr.fileNotFound
  deleteFile := fun _ _ => some StorageErr.fileNotFound

/-! ### String helper lemmas -/

theorem strData_append (a b : String) : (a ++ b).data = a.data ++ b.data := by
  rcases a with ⟨la⟩
  rcases b with ⟨lb⟩
  rfl

theorem strAppend_assoc (a b c : String) : a ++ b ++ c = a ++ (b ++ c) := by
  rcases a with ⟨la⟩
  rcases b with ⟨lb⟩
  rcases c with ⟨lc⟩
  exact congrArg String.mk (List.append_assoc la lb lc)

theorem strAppend_empty (a : String) : a ++ "" = a := by
  rcases a with ⟨la⟩
  exact congrArg String.mk (List.append_nil la)

theorem hasSlashSuffix_append_slash (s : String) :
    hasSlashSuffix (s ++ slashSeparator) = true := by
  have hd : (s ++ slashSeparator).data = s.data ++ ['/'] := strData_append s slashSeparator
  simp [hasSlashSuffix, hd]

theorem retainSlash_of_not_suffix {s : String} (h : hasSlashSuffix s = false) :
    retainSlash s = s ++ slashSeparator := by
  simp [retainSlash, h]

theorem retainSlash_of_suffix {s : String} (h : hasSlashSuffix s = true) :
    retainSlash s = s := by
  simp [retainSlash, h]

theorem hasSlashSuffix_retainSlash (s : String) :
    hasSlashSuffix (retainSlash s) = true := by
  by_cases h : hasSlashSuffix s = true
  · rw [retainSlash_of_suffix h]
    exact h
  · rw [retainSlash_of_not_suffix (Bool.eq_false_iff.mpr h)]
    exact hasSlashSuffix_append_slash s

theorem pathJoin_extends (a b : String) : ∃ t, pathJoin a b = a ++ t := by
  unfold pathJoin
  by_cases h : hasSlashSuffix a
  · exact ⟨b, by simp [h]⟩
  · exact ⟨slashSeparator ++ b, by simp [h, strAppend_assoc]⟩

/-! ### Lemmas on the result scan `firstNonNil` -/

theorem firstNonNil_eq_none_iff (l : List (Option StorageErr)) :
    firstNonNil l = none ↔ ∀ e ∈ l, e = none := by
  induction l with
  | nil => simp [firstNonNil]
  | cons a t ih =>
    cases a with
    | none => simpa [firstNonNil] using ih
    | some e => simp [firstNonNil]

theorem firstNonNil_first {l : List (Option StorageErr)} {i : Nat} {e : StorageErr}
    (hi : l[i]? = some (some e)) (hj : ∀ j, j < i → l[j]? = some none) :
    firstNonNil l = some e := by
  induction l generalizing i with
  | nil => simp at hi
  | cons a t ih =>
    cases i with
    | zero =>
      simp only [List.getElem?_cons_zero, Option.some_inj] at hi
      subst hi
      rfl
    | succ i =>
      have h0 : a = none := by
        have := hj 0 (Nat.succ_pos i)
        simpa using this
      subst h0
      simp only [List.getElem?_cons_succ] at hi
      refine ih hi ?_
      intro j hji
      have := hj (j + 1) (Nat.succ_lt_succ hji)
      simpa using this

/-! ### Shape of the operation trace of `delFunc` -/

/-- Every operation a `delLoop` run records comes from the run of one of
the listed entries. -/
theorem delLoop_ops_mem
    {child : String → Option (Option StorageErr × List Op)}
    {entryPath : String} {l : List String} {r : Option StorageErr} {ops : List Op}
    (h : delLoop child entryPath l = some (r, ops)) :
    ∀ op ∈ ops, ∃ e ∈ l, ∃ r' ops',
      child (pathJoin entryPath e) = some (r', ops') ∧ op ∈ ops' := by
  induction l generalizing r ops with
  | nil =>
    simp only [delLoop, Option.some_inj, Prod.mk.injEq] at h
    rcases h with ⟨-, h2⟩
    subst h2
    intro op hop
    simp at hop
  | cons e rest ih =>
    simp only [delLoop] at h
    rcases hc : child (pathJoin entryPath e) with - | ⟨r0, ops0⟩
    · rw [hc] at h
      simp at h
    · rw [hc] at h
      cases r0 with
      | some err =>
        simp only [Option.some_inj, Prod.mk.injEq] at h
        rcases h with ⟨-, h2⟩
        subst h2
        intro op hop
        exact ⟨e, by simp, some err, ops0, hc, hop⟩
      | none =>
        rcases hrest : delLoop child entryPath rest with - | ⟨r1, ops1⟩
        · rw [hrest] at h
          simp at h
        · rw [hrest] at h
          simp only [Option.map_some', Option.some_inj, Prod.mk.injEq] at h
          rcases h with ⟨-, h2⟩
          subst h2
          intro op hop
          rcases List.mem_append.mp hop with h0 | h1
          · exact ⟨e, by simp, none, ops0, hc, h0⟩
          · rcases ih hrest op h1 with ⟨e', he', r', ops', hch, hmem⟩
            exact ⟨e', by simp [he'], r', ops', hch, hmem⟩

/-- Every operation `delFunc` records is a listing or a deletion, on the
same volume, at a path extending the current path; deletions are only ever
issued on paths without a trailing separator. -/
theorem delFunc_ops_shape (storage : StorageAPI) (volume : String) :
    ∀ fuel p r ops, delFunc storage volume fuel p = some (r, ops) →
      ∀ op ∈ ops,
        (∃ q t, op = Op.listDirOp volume q ∧ q = p ++ t) ∨
        (∃ q t, op = Op.deleteFileOp volume q ∧ q = p ++ t ∧
          hasSlashSuffix q = false) := by
  intro fuel
  induction fuel with
  | zero => intro p r ops h; simp [delFunc] at h
  | succ fuel ih =>
    intro p r ops h op hop
    by_cases hs : hasSlashSuffix p = false
    · simp only [delFunc, if_pos hs, Option.some_inj, Prod.mk.injEq] at h
      rcases h with ⟨-, h2⟩
      subst h2
      simp only [List.mem_singleton] at hop
      subst hop
      exact Or.inr ⟨p, "", rfl, (strAppend_empty p).symm, hs⟩
    · rcases hl : storage.listDir volume p with e | entries
      · simp only [delFunc, if_neg hs, hl] at h
        by_cases he : e = StorageErr.fileNotFound
        · rw [if_pos he] at h
          simp only [Option.some_inj, Prod.mk.injEq] at h
          rcases h with ⟨-, h2⟩
          subst h2
          simp only [List.mem_singleton] at hop
          subst hop
          exact Or.inl ⟨p, "", rfl, (strAppend_empty p).symm⟩
        · rw [if_neg he] at h
          simp only [Option.some_inj, Prod.mk.injEq] at h
          rcases h with ⟨-, h2⟩
          subst h2
          simp only [List.mem_singleton] at hop
          subst hop
          exact Or.inl ⟨p, "", rfl, (strAppend_empty p).symm⟩
      · simp only [delFunc, if_neg hs, hl] at h
        rcases hloop : delLoop (delFunc storage volume fuel) p entries with - | ⟨r1, ops1⟩
        · rw [hloop] at h
          simp at h
        · rw [hloop] at h
          simp only [Option.map_some', Option.some_inj, Prod.mk.injEq] at h
          rcases h with ⟨-, h2⟩
          subst h2
          rcases List.mem_cons.mp hop with h0 | h1
          · subst h0
            exact Or.inl ⟨p, "", rfl, (strAppend_empty p).symm⟩
          · rcases delLoop_ops_mem hloop op h1 with ⟨e, -, r', ops', hch, hmem⟩
            rcases pathJoin_extends p e with ⟨u, hu⟩
            rcases ih (pathJoin p e) r' ops' hch op hmem with
              ⟨q, t, hop1, hq⟩ | ⟨q, t, hop1, hq, hsuf⟩
            · refine Or.inl ⟨q, u ++ t, hop1, ?_⟩
              rw [hq, hu, strAppend_assoc]
            · refine Or.inr ⟨q, u ++ t, hop1, ?_, hsuf⟩
              rw [hq, hu, strAppend_assoc]

/-! ### Fuel monotonicity -/

/-- A `delLoop` run is preserved when the child runner is refined on the
`some` results it already produces. -/
theorem delLoop_mono
    {child child' : String → Option (Option StorageErr × List Op)}
    (hch : ∀ q r, child q = some r → child' q = some r)
    {entryPath : String} {l : List String} {r : Option StorageErr × List Op}
    (h : delLoop child entryPath l = some r) :
    delLoop child' entryPath l = some r := by
  induction l generalizing r with
  | nil => simpa [delLoop] using h
  | cons e rest ih =>
    simp only [delLoop] at h ⊢
    rcases hc : child (pathJoin entryPath e) with - | ⟨r0, ops0⟩
    · rw [hc] at h
      simp at h
    · rw [hc] at h
      rw [hch _ _ hc]
      cases r0 with
      | some err => exact h
      | none =>
        rcases hrest : delLoop child entryPath rest with - | r1
        · rw [hrest] at h
          simp at h
        · rw [hrest] at h
          rw [ih hrest]
          exact h

/-- One-step unfolding of `delFunc` at positive fuel. -/
theorem delFunc_succ (storage : StorageAPI) (volume : String) (fuel : Nat)
    (p : String) :
    delFunc storage volume (fuel + 1) p =
      if hasSlashSuffix p = false then
        some (storage.deleteFile volume p, [Op.deleteFileOp volume p])
      else
        match storage.listDir volume p with
        | Except.error e =>
          if e = StorageErr.fileNotFound then some (none, [Op.listDirOp volume p])
          else some (some e, [Op.listDirOp volume p])
        | Except.ok entries =>
          (delLoop (delFunc storage volume fuel) p entries).map
            (fun r => (r.1, Op.listDirOp volume p :: r.2)) := rfl

/-- Once `delFunc` completes within some fuel, one more unit of fuel does
not change its outcome. -/
theorem delFunc_mono_succ (storage : StorageAPI) (volume : String) :
    ∀ fuel p r, delFunc storage volume fuel p = some r →
      delFunc storage volume (fuel + 1) p = some r := by
  intro fuel
  induction fuel with
  | zero => intro p r h; simp [delFunc] at h
  | succ fuel ih =>
    intro p r h
    rw [delFunc_succ] at h
    rw [delFunc_succ]
    by_cases hs : hasSlashSuffix p = false
    · rw [if_pos hs] at h
      rw [if_pos hs]
      exact h
    · rw [if_neg hs] at h
      rw [if_neg hs]
      rcases hl : storage.listDir volume p with e | entries
      · rw [hl] at h
        exact h
      · rw [hl] at h
        have h' : (delLoop (delFunc storage volume fuel) p entries).map
            (fun r => (r.1, Op.listDirOp volume p :: r.2)) = some r := h
        show (delLoop (delFunc storage volume (fuel + 1)) p entries).map
            (fun r => (r.1, Op.listDirOp volume p :: r.2)) = some r
        rcases hloop : delLoop (delFunc storage volume fuel) p entries with - | r1
        · rw [hloop] at h'
          simp at h'
        · rw [hloop] at h'
          rw [delLoop_mono (fun q r' hq => ih q r' hq) hloop]
          exact h'

/-- `delFunc` outcomes are stable under any increase of fuel. -/
theorem delFunc_mono (storage : StorageAPI) (volume : String)
    {fuel fuel' : Nat} (hle : fuel ≤ fuel') {p : String}
    {r : Option StorageErr × List Op}
    (h : delFunc storage volume fuel p = some r) :
    delFunc storage volume fuel' p = some r := by
  induction hle with
  | refl => exact h
  | step _ ih => exact delFunc_mono_succ storage volume _ p r ih

/-! ### Decomposition of a successful loop and permutation invariance -/

/-- The trace of the run of one entry under a fixed child runner (empty
when that run did not succeed). -/
def childOut (child : String → Option (Option StorageErr × List Op))
    (entryPath entry : String) : List Op :=
  match child (pathJoin entryPath entry) with
  | some (none, ops) => ops
  | _ => []

/-- A successful `delLoop` run means every entry's child run succeeded,
and the loop trace is the concatenation of the child traces in listing
order. -/
theorem delLoop_success
    {child : String → Option (Option StorageErr × List Op)}
    {entryPath : String} :
    ∀ {l : List String} {ops : List Op},
      delLoop child entryPath l = some (none, ops) →
      ops = l.flatMap (childOut child entryPath) ∧
      ∀ e ∈ l, child (pathJoin entryPath e) = some (none, childOut child entryPath e) := by
  intro l
  induction l with
  | nil =>
    intro ops h
    simp only [delLoop, Option.some_inj, Prod.mk.injEq] at h
    rcases h with ⟨-, h2⟩
    subst h2
    exact ⟨by simp, by simp⟩
  | cons e rest ih =>
    intro ops h
    simp only [delLoop] at h
    rcases hc : child (pathJoin entryPath e) with - | ⟨r0, ops0⟩
    · rw [hc] at h
      simp at h
    · rw [hc] at h
      cases r0 with
      | some err =>
        simp only [Option.some_inj, Prod.mk.injEq] at h
        exact absurd h.1.symm (by simp)
      | none =>
        rcases hrest : delLoop child entryPath rest with - | ⟨r1, ops1⟩
        · rw [hrest] at h
          simp at h
        · rw [hrest] at h
          simp only [Option.map_some', Option.some_inj, Prod.mk.injEq] at h
          rcases h with ⟨h1, h2⟩
          subst h2
          subst h1
          rcases ih hrest with ⟨ih1, ih2⟩
          have hco : childOut child entryPath e = ops0 := by
            simp [childOut, hc]
          constructor
          · rw [List.flatMap_cons, hco, ih1]
          · intro e' he'
            rcases List.mem_cons.mp he' with h0 | h0
            · subst h0
              rw [hco]
              exact hc
            · exact ih2 e' h0

/-- A listing record contributes nothing to `deletedPaths`. -/
theorem deletedPaths_listDirOp_cons (v p : String) (ops : List Op) :
    deletedPaths (Op.listDirOp v p :: ops) = deletedPaths ops := by
  simp [deletedPaths]

/-- `deletedPaths` distributes over concatenation. -/
theorem deletedPaths_append (a b : List Op) :
    deletedPaths (a ++ b) = deletedPaths a ++ deletedPaths b := by
  simp [deletedPaths, List.filterMap_append]

/-- `deletedPaths` of a concatenated family is the concatenation of the
per-member `deletedPaths`. -/
theorem deletedPaths_flatMap (l : List String) (F : String → List Op) :
    deletedPaths (l.flatMap F) = l.flatMap (fun e => deletedPaths (F e)) := by
  induction l with
  | nil => simp [deletedPaths]
  | cons e rest ih =>
    simp only [List.flatMap_cons, deletedPaths_append, ih]

/-- Two backends whose directory listings agree up to a permutation of
each directory's entry sequence (and whose failures agree exactly). -/
def ListingPerm (s₁ s₂ : StorageAPI) : Prop :=
  ∀ v p,
    match s₁.listDir v p, s₂.listDir v p with
    | Except.ok l₁, Except.ok l₂ => l₁.Perm l₂
    | Except.error e₁, Except.error e₂ => e₁ = e₂
    | _, _ => False

/-- Successful `delFunc` walks of two listing-permuted backends delete a
permutation of the same paths, independently of the fuel each run used. -/
theorem delFunc_perm (s₁ s₂ : StorageAPI) (volume : String)
    (hperm : ListingPerm s₁ s₂) :
    ∀ fuel₁ fuel₂ p ops₁ ops₂,
      delFunc s₁ volume fuel₁ p = some (none, ops₁) →
      delFunc s₂ volume fuel₂ p = some (none, ops₂) →
      (deletedPaths ops₁).Perm (deletedPaths ops₂) := by
  intro fuel₁
  induction fuel₁ with
  | zero => intro fuel₂ p ops₁ ops₂ h1 h2; simp [delFunc] at h1
  | succ fuel₁ ih =>
    intro fuel₂ p ops₁ ops₂ h1 h2
    cases fuel₂ with
    | zero => simp [delFunc] at h2
    | succ fuel₂ =>
      rw [delFunc_succ] at h1
      rw [delFunc_succ] at h2
      by_cases hs : hasSlashSuffix p = false
      · rw [if_pos hs] at h1
        rw [if_pos hs] at h2
        simp only [Option.some_inj, Prod.mk.injEq] at h1 h2
        rw [← h1.2, ← h2.2]
      · rw [if_neg hs] at h1
        rw [if_neg hs] at h2
        have hlp := hperm volume p
        rcases hl1 : s₁.listDir volume p with e1 | l1 <;>
          rcases hl2 : s₂.listDir volume p with e2 | l2 <;>
            rw [hl1] at h1 hlp <;> rw [hl2] at h2 hlp
        · have he12 : e1 = e2 := hlp
          subst he12
          have h1' : (if e1 = StorageErr.fileNotFound then
                some (none, [Op.listDirOp volume p])
              else some (some e1, [Op.listDirOp volume p])) = some (none, ops₁) := h1
          have h2' : (if e1 = StorageErr.fileNotFound then
                some (none, [Op.listDirOp volume p])
              else some (some e1, [Op.listDirOp volume p])) = some (none, ops₂) := h2
          by_cases he : e1 = StorageErr.fileNotFound
          · rw [if_pos he] at h1' h2'
            simp only [Option.some_inj, Prod.mk.injEq] at h1' h2'
            rw [← h1'.2, ← h2'.2]
          · rw [if_neg he] at h1'
            simp only [Option.some_inj, Prod.mk.injEq] at h1'
            exact absurd h1'.1 (by simp)
        · exact absurd hlp (by simp)
        · exact absurd hlp (by simp)
        · have h1' : (delLoop (delFunc s₁ volume fuel₁) p l1).map
              (fun r => (r.1, Op.listDirOp volume p :: r.2)) = some (none, ops₁) := h1
          have h2' : (delLoop (delFunc s₂ volume fuel₂) p l2).map
              (fun r => (r.1, Op.listDirOp volume p :: r.2)) = some (none, ops₂) := h2
          have hl12 : l1.Perm l2 := hlp
          rcases hlo1 : delLoop (delFunc s₁ volume fuel₁) p l1 with - | ⟨r1, tail1⟩
          · rw [hlo1] at h1'
            simp at h1'
          · rw [hlo1] at h1'
            simp only [Option.map_some', Option.some_inj, Prod.mk.injEq] at h1'
            rcases h1' with ⟨h1r, h1o⟩
            subst h1r
            rcases hlo2 : delLoop (delFunc s₂ volume fuel₂) p l2 with - | ⟨r2, tail2⟩
            · rw [hlo2] at h2'
              simp at h2'
            · rw [hlo2] at h2'
              simp only [Option.map_some', Option.some_inj, Prod.mk.injEq] at h2'
              rcases h2' with ⟨h2r, h2o⟩
              subst h2r
              rcases delLoop_success hlo1 with ⟨ho1, hch1⟩
              rcases delLoop_success hlo2 with ⟨ho2, hch2⟩
              rw [← h1o, ← h2o, ho1, ho2]
              rw [deletedPaths_listDirOp_cons, deletedPaths_listDirOp_cons]
              rw [deletedPaths_flatMap, deletedPaths_flatMap]
              have step1 :
                  (l1.flatMap fun e =>
                    deletedPaths (childOut (delFunc s₁ volume fuel₁) p e)).Perm
                  (l1.flatMap fun e =>
                    deletedPaths (childOut (delFunc s₂ volume fuel₂) p e)) := by
                refine List.Perm.flatMap_left l1 ?_
                intro e he
                exact ih fuel₂ (pathJoin p e) _ _ (hch1 e he)
                  (hch2 e (hl12.mem_iff.mp he))
              exact step1.trans (hl12.flatMap_right _)

/-! ### Totality of the walk under a well-founded descent measure -/

/-- If every entry's child run completes, the loop completes. -/
theorem delLoop_total (child : String → Option (Option StorageErr × List Op))
    (p : String) : ∀ l : List String,
    (∀ e ∈ l, ∃ r, child (pathJoin p e) = some r) →
    ∃ r, delLoop child p l = some r := by
  intro l
  induction l with
  | nil => intro _; exact ⟨(none, []), rfl⟩
  | cons e rest ih =>
    intro hall
    rcases hall e (by simp) with ⟨⟨r0, ops0⟩, hc⟩
    cases r0 with
    | some err => exact ⟨(some err, ops0), by simp [delLoop, hc]⟩
    | none =>
      rcases ih (fun e' he' => hall e' (by simp [he'])) with ⟨⟨r1, ops1⟩, hrest⟩
      exact ⟨(r1, ops0 ++ ops1), by simp [delLoop, hc, hrest]⟩

/-- If a measure `h` decreases strictly from every listed directory to each
of its children, `delFunc` completes within fuel `h p + 1`. -/
theorem delFunc_total_of_measure (s : StorageAPI) (v : String) (h : String → Nat)
    (hdesc : ∀ p entries, hasSlashSuffix p = true → s.listDir v p = Except.ok entries →
      ∀ e ∈ entries, h (pathJoin p e) < h p) :
    ∀ n p, h p < n → ∃ r, delFunc s v (h p + 1) p = some r := by
  intro n
  induction n with
  | zero => intro p hp; exact absurd hp (Nat.not_lt_zero _)
  | succ n ih =>
    intro p hp
    by_cases hs : hasSlashSuffix p = false
    · exact ⟨(s.deleteFile v p, [Op.deleteFileOp v p]),
        by rw [delFunc_succ, if_pos hs]⟩
    · have hs' : hasSlashSuffix p = true := by
        cases hx : hasSlashSuffix p
        · exact absurd hx hs
        · rfl
      rcases hl : s.listDir v p with e | entries
      · by_cases he : e = StorageErr.fileNotFound
        · refine ⟨(none, [Op.listDirOp v p]), ?_⟩
          rw [delFunc_succ, if_neg hs, hl]
          show (if e = StorageErr.fileNotFound then some (none, [Op.listDirOp v p])
            else some (some e, [Op.listDirOp v p])) = some (none, [Op.listDirOp v p])
          rw [if_pos he]
        · refine ⟨(some e, [Op.listDirOp v p]), ?_⟩
          rw [delFunc_succ, if_neg hs, hl]
          show (if e = StorageErr.fileNotFound then some (none, [Op.listDirOp v p])
            else some (some e, [Op.listDirOp v p])) = some (some e, [Op.listDirOp v p])
          rw [if_neg he]
      · have hch : ∀ e ∈ entries, ∃ r, delFunc s v (h p) (pathJoin p e) = some r := by
          intro e he
          have hlt : h (pathJoin p e) < h p := hdesc p entries hs' hl e he
          have hple : h (pathJoin p e) + 1 ≤ h p := hlt
          have h0 : h (pathJoin p e) < n :=
            Nat.lt_of_lt_of_le hlt (Nat.lt_succ_iff.mp hp)
          rcases ih (pathJoin p e) h0 with ⟨r, hr⟩
          exact ⟨r, delFunc_mono s v hple hr⟩
        rcases delLoop_total (delFunc s v (h p)) p entries hch with ⟨⟨r1, ops1⟩, hloop⟩
        refine ⟨(r1, Op.listDirOp v p :: ops1), ?_⟩
        rw [delFunc_succ, if_neg hs, hl]
        show (delLoop (delFunc s v (h p)) p entries).map
            (fun r => (r.1, Op.listDirOp v p :: r.2)) = some (r1, Op.listDirOp v p :: ops1)
        rw [hloop]
        rfl

/-! ### Lemmas on `runUnits` and `initUnit` -/

/-- If every listed backend's unit completes, `runUnits` completes. -/
theorem runUnits_total (fuel : Nat) :
    ∀ ds : List StorageAPI,
      (∀ (j : Nat) (d : StorageAPI), ds[j]? = some d → ∃ r, initUnit fuel d = some r) →
      ∃ rs, runUnits fuel ds = some rs := by
  intro ds
  induction ds with
  | nil => intro _; exact ⟨[], rfl⟩
  | cons d rest ih =>
    intro hall
    rcases hall 0 d (by simp) with ⟨r, hr⟩
    rcases ih (fun j dj hj => hall (j + 1) dj (by simpa using hj)) with ⟨rs, hrs⟩
    exact ⟨r :: rs, by simp [runUnits, hr, hrs]⟩

/-- A completed `runUnits` run records, at every index, exactly the
outcome of that backend's own unit. -/
theorem runUnits_get (fuel : Nat) :
    ∀ ds rs, runUnits fuel ds = some rs →
      ∀ (j : Nat) (d : StorageAPI), ds[j]? = some d →
        ∃ r, rs[j]? = some r ∧ initUnit fuel d = some r := by
  intro ds
  induction ds with
  | nil =>
    intro rs h j d hj
    simp at hj
  | cons d0 rest ih =>
    intro rs h j d hj
    simp only [runUnits] at h
    rcases h0 : initUnit fuel d0 with - | r0
    · rw [h0] at h
      simp at h
    · rw [h0] at h
      rcases hrest : runUnits fuel rest with - | rs1
      · rw [hrest] at h
        simp at h
      · rw [hrest] at h
        simp only [Option.some_inj] at h
        subst h
        cases j with
        | zero =>
          simp only [List.getElem?_cons_zero, Option.some_inj] at hj
          subst hj
          exact ⟨r0, by simp, h0⟩
        | succ j =>
          simp only [List.getElem?_cons_succ] at hj ⊢
          exact ih rs1 hrest j d hj

/-- A completed `runUnits` run has one slot per backend. -/
theorem runUnits_length (fuel : Nat) :
    ∀ ds rs, runUnits fuel ds = some rs → rs.length = ds.length := by
  intro ds
  induction ds with
  | nil =>
    intro rs h
    simp only [runUnits, Option.some_inj] at h
    subst h
    rfl
  | cons d0 rest ih =>
    intro rs h
    simp only [runUnits] at h
    rcases h0 : initUnit fuel d0 with - | r0
    · rw [h0] at h
      simp at h
    · rw [h0] at h
      rcases hrest : runUnits fuel rest with - | rs1
      · rw [hrest] at h
        simp at h
      · rw [hrest] at h
        simp only [Option.some_inj] at h
        subst h
        simp [ih rs1 hrest]

/-- A unit that records a `nil` outcome necessarily ran its cleanup pass
to successful completion. -/
theorem initUnit_none_cleanup {fuel : Nat} {disk : StorageAPI} {ops : List Op}
    (h : initUnit fuel disk = some (none, ops)) :
    ∃ ops', cleanupDir fuel disk minioMetaBucket tmpMetaPrefix = some (none, ops') ∧
      ops = Op.makeVolOp minioMetaBucket :: ops' := by
  rcases hmv : disk.makeVol minioMetaBucket with - | e
  · simp only [initUnit, hmv] at h
    rcases hcl : cleanupDir fuel disk minioMetaBucket tmpMetaPrefix with - | ⟨r0, ops0⟩
    · rw [hcl] at h
      simp at h
    · rw [hcl] at h
      simp only [Option.map_some', Option.some_inj, Prod.mk.injEq] at h
      rcases h with ⟨h1, h2⟩
      subst h1
      subst h2
      exact ⟨ops0, rfl, rfl⟩
  · simp only [initUnit, hmv] at h
    by_cases hhard : e ≠ StorageErr.volumeExists ∧ e ≠ StorageErr.diskNotFound
    · rw [if_pos hhard] at h
      simp at h
    · rw [if_neg hhard] at h
      rcases hcl : cleanupDir fuel disk minioMetaBucket tmpMetaPrefix with - | ⟨r0, ops0⟩
      · rw [hcl] at h
        simp at h
      · rw [hcl] at h
        simp only [Option.map_some', Option.some_inj, Prod.mk.injEq] at h
        rcases h with ⟨h1, h2⟩
        subst h1
        subst h2
        exact ⟨ops0, rfl, rfl⟩

/-! ### Claim theorems -/

/-- C1: after all per-backend units complete, `initObjectLayer` scans the
per-backend outcomes in backend-index order; it returns nil exactly when
every recorded outcome is nil, and otherwise returns the first recorded
non-nil error translated with the metadata-volume name and temp path as
context (so when the units at indices 2 and 5 record errors and the
earlier units record nil, the error of index 2 is returned). -/
theorem initObjectLayer_first_error (fuel : Nat) (disks : List StorageAPI)
    (results : List (Option StorageErr × List Op))
    (errs : List (Option StorageErr))
    (hc : runUnits fuel disks = some results)
    (he : errs = results.map Prod.fst) :
    (initObjectLayer fuel disks = some none ↔ ∀ e ∈ errs, e = none) ∧
    (∀ (i : Nat) (e : StorageErr), errs[i]? = some (some e) →
      (∀ j : Nat, j < i → errs[j]? = some none) →
      initObjectLayer fuel disks =
        some (some (toObjectErr e minioMetaBucket tmpMetaPrefix))) := by
  subst he
  have hio : initObjectLayer fuel disks =
      some ((firstNonNil (results.map Prod.fst)).map
        (fun e => toObjectErr e minioMetaBucket tmpMetaPrefix)) := by
    simp [initObjectLayer, hc]
  constructor
  · rw [hio]
    simp only [Option.some_inj, Option.map_eq_none']
    exact firstNonNil_eq_none_iff _
  · intro i e hi hj
    rw [hio, firstNonNil_first hi hj]
    rfl

/-- Concrete instance of C1: six backends with hard failures at indices 2
and 5; the returned error is the one of index 2. -/
theorem initObjectLayer_first_error_witness :
    initObjectLayer 1 [okDisk, okDisk, failDisk 2, okDisk, okDisk, failDisk 5] =
      some (some (toObjectErr (StorageErr.other 2) minioMetaBucket tmpMetaPrefix)) :=
  (initObjectLayer_first_error 1
      [okDisk, okDisk, failDisk 2, okDisk, okDisk, failDisk 5]
      [(none, [Op.makeVolOp minioMetaBucket, Op.listDirOp minioMetaBucket "tmp/"]),
       (none, [Op.makeVolOp minioMetaBucket, Op.listDirOp minioMetaBucket "tmp/"]),
       (some (StorageErr.other 2), [Op.makeVolOp minioMetaBucket]),
       (none, [Op.makeVolOp minioMetaBucket, Op.listDirOp minioMetaBucket "tmp/"]),
       (none, [Op.makeVolOp minioMetaBucket, Op.listDirOp minioMetaBucket "tmp/"]),
       (some (StorageErr.other 5), [Op.makeVolOp minioMetaBucket])]
      [none, none, some (StorageErr.other 2), none, none, some (StorageErr.other 5)]
      (by decide) (by decide)).2 2 (StorageErr.other 2) (by decide)
    (by
      intro j hj
      match j with
      | 0 => rfl
      | 1 => rfl
      | n + 2 => exact absurd hj (by omega))

/-- C2: `cleanupDir` succeeds when the normalized root cannot be listed
because it does not exist (`fileNotFound`) and also when the root lists as
empty — so a first run on an absent subtree and a second run on an
already-cleaned subtree both return no error. -/
theorem cleanupDir_missing_or_empty_root_ok (fuel : Nat) (storage : StorageAPI)
    (volume dirPath : String)
    (h : storage.listDir volume (retainSlash dirPath) =
          Except.error StorageErr.fileNotFound ∨
         storage.listDir volume (retainSlash dirPath) = Except.ok []) :
    (cleanupDir (fuel + 1) storage volume dirPath).map Prod.fst = some none := by
  have hs : hasSlashSuffix (retainSlash dirPath) = true :=
    hasSlashSuffix_retainSlash dirPath
  unfold cleanupDir
  rw [delFunc_succ, if_neg (by simp [hs])]
  rcases h with h | h <;> rw [h] <;> rfl

/-- Concrete instance of C2: a backend whose temp subtree never existed. -/
theorem cleanupDir_missing_or_empty_root_ok_witness :
    (cleanupDir 1 okDisk "v" "x").map Prod.fst = some none :=
  cleanupDir_missing_or_empty_root_ok 0 okDisk "v" "x" (Or.inl rfl)

/-- C3: when `MakeVol` returns `volumeExists` or `diskNotFound` the unit
still proceeds to the cleanup pass and records no error for the `MakeVol`
step (its outcome is exactly the cleanup outcome); when `MakeVol` returns
any other error, that error is recorded and the unit stops with only the
`MakeVol` call in its trace — no cleanup is attempted. -/
theorem initUnit_makeVol_err_handling (fuel : Nat) (disk : StorageAPI)
    (e : StorageErr) (hmv : disk.makeVol minioMetaBucket = some e) :
    ((e = StorageErr.volumeExists ∨ e = StorageErr.diskNotFound) →
      initUnit fuel disk =
        (cleanupDir fuel disk minioMetaBucket tmpMetaPrefix).map
          (fun r => (r.1, Op.makeVolOp minioMetaBucket :: r.2))) ∧
    (e ≠ StorageErr.volumeExists → e ≠ StorageErr.diskNotFound →
      initUnit fuel disk = some (some e, [Op.makeVolOp minioMetaBucket])) := by
  constructor
  · intro hsoft
    have hhard : ¬ (e ≠ StorageErr.volumeExists ∧ e ≠ StorageErr.diskNotFound) := by
      rcases hsoft with h | h <;> simp [h]
    simp [initUnit, hmv, hhard]
  · intro h1 h2
    simp [initUnit, hmv, h1, h2]

/-- Concrete instance of C3: a backend whose metadata volume already
exists still runs (and records) its cleanup pass. -/
theorem initUnit_makeVol_err_handling_witness :
    initUnit 1 volExistsDisk =
      (cleanupDir 1 volExistsDisk minioMetaBucket tmpMetaPrefix).map
        (fun r => (r.1, Op.makeVolOp minioMetaBucket :: r.2)) :=
  (initUnit_makeVol_err_handling 1 volExistsDisk StorageErr.volumeExists rfl).1
    (Or.inl rfl)

/-- C4: `DeleteFile` is never invoked on a separator-terminated path —
every such path goes to the list-and-recurse branch — and on the synthetic
tree `a/`, `a/b`, `a/c/`, `a/c/d` the walk lists `a/` and `a/c/` and
deletes exactly `a/b` and `a/c/d`, never `a/c`. -/
theorem cleanupDir_never_deletes_dir_path :
    (∀ (fuel : Nat) (storage : StorageAPI) (volume dirPath : String)
      (r : Option StorageErr) (ops : List Op),
      cleanupDir fuel storage volume dirPath = some (r, ops) →
      ∀ (v' q : String), Op.deleteFileOp v' q ∈ ops →
        hasSlashSuffix q = false) ∧
    cleanupDir 3 demoBackend "v" "a" =
      some (none, [Op.listDirOp "v" "a/", Op.deleteFileOp "v" "a/b",
                   Op.listDirOp "v" "a/c/", Op.deleteFileOp "v" "a/c/d"]) := by
  constructor
  · intro fuel storage volume dirPath r ops h v' q hmem
    rcases delFunc_ops_shape storage volume fuel (retainSlash dirPath) r ops h
        _ hmem with ⟨q', t, heq, -⟩ | ⟨q', t, heq, -, hsuf⟩
    · exact absurd heq (by simp)
    · injection heq with h1 h2
      rw [h2]
      exact hsuf
  · decide

/-- Concrete application of C4's general part: the deletion of `a/b`
recorded by the demo walk targets a path without a trailing separator. -/
theorem cleanupDir_never_deletes_dir_path_witness :
    hasSlashSuffix "a/b" = false :=
  cleanupDir_never_deletes_dir_path.1 3 demoBackend "v" "a" none
    [Op.listDirOp "v" "a/", Op.deleteFileOp "v" "a/b",
     Op.listDirOp "v" "a/c/", Op.deleteFileOp "v" "a/c/d"]
    (by decide) "v" "a/b" (by decide)

/-- C5 counterexample: a leaf whose `DeleteFile` reports `fileNotFound` is
NOT absorbed — `cleanupDir` surfaces exactly that error to its caller.
`staleDisk` lists `t/f` but its deletion reports `fileNotFound`; the claim
says the run should succeed, yet it returns `fileNotFound`. -/
theorem cleanupDir_deleteFile_notFound_surfaced_cex :
    staleDisk.deleteFile "v" "t/f" = some StorageErr.fileNotFound ∧
    cleanupDir 2 staleDisk "v" "t" =
      some (some StorageErr.fileNotFound,
        [Op.listDirOp "v" "t/", Op.deleteFileOp "v" "t/f"]) ∧
    (cleanupDir 2 staleDisk "v" "t").map Prod.fst ≠ some none := by
  refine ⟨rfl, by decide, by decide⟩

/-- C5 amended: only the not-found error of a listing is absorbed.  The
leaf branch returns `DeleteFile`'s outcome verbatim (so a not-found
deletion error propagates to the caller like any other deletion failure),
a non-not-found listing error is returned as is, and the entry loop aborts
with the first failing child's error. -/
theorem cleanupDir_only_listing_notFound_absorbed (storage : StorageAPI)
    (volume : String) (fuel : Nat) (entryPath : String) :
    (hasSlashSuffix entryPath = false →
      delFunc storage volume (fuel + 1) entryPath =
        some (storage.deleteFile volume entryPath,
          [Op.deleteFileOp volume entryPath])) ∧
    (hasSlashSuffix entryPath = true →
      storage.listDir volume entryPath = Except.error StorageErr.fileNotFound →
      delFunc storage volume (fuel + 1) entryPath =
        some (none, [Op.listDirOp volume entryPath])) ∧
    (∀ e : StorageErr, hasSlashSuffix entryPath = true →
      storage.listDir volume entryPath = Except.error e →
      e ≠ StorageErr.fileNotFound →
      delFunc storage volume (fuel + 1) entryPath =
        some (some e, [Op.listDirOp volume entryPath])) ∧
    (∀ (child : String → Option (Option StorageErr × List Op))
      (e : StorageErr) (ops : List Op) (entry : String) (rest : List String),
      child (pathJoin entryPath entry) = some (some e, ops) →
      delLoop child entryPath (entry :: rest) = some (some e, ops)) := by
  refine ⟨?_, ?_, ?_, ?_⟩
  · intro h
    rw [delFunc_succ, if_pos h]
  · intro hs hl
    rw [delFunc_succ, if_neg (by simp [hs]), hl]
    show (if StorageErr.fileNotFound = StorageErr.fileNotFound then
        some ((none : Option StorageErr), [Op.listDirOp volume entryPath])
      else some (some StorageErr.fileNotFound, [Op.listDirOp volume entryPath])) =
      some (none, [Op.listDirOp volume entryPath])
    rw [if_pos rfl]
  · intro e hs hl he
    rw [delFunc_succ, if_neg (by simp [hs]), hl]
    show (if e = StorageErr.fileNotFound then
        some ((none : Option StorageErr), [Op.listDirOp volume entryPath])
      else some (some e, [Op.listDirOp volume entryPath])) =
      some (some e, [Op.listDirOp volume entryPath])
    rw [if_neg he]
  · intro child e ops entry rest hc
    simp [delLoop, hc]

/-- Concrete instance of the amended C5: the leaf `t/f` of `staleDisk`
returns its `fileNotFound` deletion outcome verbatim. -/
theorem cleanupDir_only_listing_notFound_absorbed_witness :
    delFunc staleDisk "v" 1 "t/f" =
      some (some StorageErr.fileNotFound, [Op.deleteFileOp "v" "t/f"]) :=
  (cleanupDir_only_listing_notFound_absorbed staleDisk "v" 0 "t/f").1 (by decide)

/-- C6: when exactly one backend's volume creation hard-fails and every
other backend's unit succeeds, `initObjectLayer` returns the failing
backend's error (translated with the metadata-volume/temp-path context),
and every other backend's cleanup pass still ran to completion — each
unit's outcome depends only on its own backend. -/
theorem initObjectLayer_fanout_isolation (fuel : Nat) (disks : List StorageAPI)
    (i : Nat) (d : StorageAPI) (e : StorageErr)
    (hd : disks[i]? = some d)
    (hmv : d.makeVol minioMetaBucket = some e)
    (h1 : e ≠ StorageErr.volumeExists) (h2 : e ≠ StorageErr.diskNotFound)
    (hothers : ∀ (j : Nat) (dj : StorageAPI), j ≠ i → disks[j]? = some dj →
      ∃ ops, initUnit fuel dj = some (none, ops)) :
    initObjectLayer fuel disks =
      some (some (toObjectErr e minioMetaBucket tmpMetaPrefix)) ∧
    (∀ (j : Nat) (dj : StorageAPI), j ≠ i → disks[j]? = some dj →
      ∃ ops', cleanupDir fuel dj minioMetaBucket tmpMetaPrefix =
        some (none, ops')) := by
  have hui : initUnit fuel d = some (some e, [Op.makeVolOp minioMetaBucket]) := by
    simp [initUnit, hmv, h1, h2]
  have htotal : ∀ (j : Nat) (dj : StorageAPI), disks[j]? = some dj →
      ∃ r, initUnit fuel dj = some r := by
    intro j dj hj
    by_cases hji : j = i
    · subst hji
      have hdd : d = dj := by
        rw [hd] at hj
        exact Option.some_inj.mp hj
      subst hdd
      exact ⟨(some e, [Op.makeVolOp minioMetaBucket]), hui⟩
    · rcases hothers j dj hji hj with ⟨ops, hops⟩
      exact ⟨(none, ops), hops⟩
  rcases runUnits_total fuel disks htotal with ⟨rs, hrs⟩
  have hilen : i < disks.length := (List.getElem?_eq_some.mp hd).1
  rcases runUnits_get fuel disks rs hrs i d hd with ⟨ri, hri, hii⟩
  have hri' : ri = (some e, [Op.makeVolOp minioMetaBucket]) := by
    rw [hui] at hii
    exact (Option.some_inj.mp hii).symm
  have herri : (rs.map Prod.fst)[i]? = some (some e) := by
    rw [List.getElem?_map, hri, hri']
    rfl
  have herrj : ∀ j : Nat, j < i → (rs.map Prod.fst)[j]? = some none := by
    intro j hji
    have hjlen : j < disks.length := Nat.lt_trans hji hilen
    have hjd : disks[j]? = some disks[j] := List.getElem?_eq_getElem hjlen
    rcases hothers j disks[j] (Nat.ne_of_lt hji) hjd with ⟨ops, hops⟩
    rcases runUnits_get fuel disks rs hrs j disks[j] hjd with ⟨rj, hrj, hjj⟩
    have hrj' : rj = (none, ops) := by
      rw [hops] at hjj
      exact (Option.some_inj.mp hjj).symm
    rw [List.getElem?_map, hrj, hrj']
    rfl
  constructor
  · have hio : initObjectLayer fuel disks =
        some ((firstNonNil (rs.map Prod.fst)).map
          (fun x => toObjectErr x minioMetaBucket tmpMetaPrefix)) := by
      simp [initObjectLayer, hrs]
    rw [hio, firstNonNil_first herri herrj]
    rfl
  · intro j dj hj hdj
    rcases hothers j dj hj hdj with ⟨ops, hops⟩
    rcases initUnit_none_cleanup hops with ⟨ops', hcl, -⟩
    exact ⟨ops', hcl⟩

/-- Concrete instance of C6: three backends, the middle one hard-failing;
the middle backend's error is returned and the outer backends' cleanups
still completed. -/
theorem initObjectLayer_fanout_isolation_witness :
    initObjectLayer 1 [okDisk, failDisk 7, okDisk] =
      some (some (toObjectErr (StorageErr.other 7) minioMetaBucket tmpMetaPrefix)) ∧
    (∀ (j : Nat) (dj : StorageAPI), j ≠ 1 →
      [okDisk, failDisk 7, okDisk][j]? = some dj →
      ∃ ops', cleanupDir 1 dj minioMetaBucket tmpMetaPrefix =
        some (none, ops')) :=
  initObjectLayer_fanout_isolation 1 [okDisk, failDisk 7, okDisk] 1 (failDisk 7)
    (StorageErr.other 7) rfl rfl (by decide) (by decide)
    (by
      intro j dj hj hdj
      match j with
      | 0 =>
        simp only [List.getElem?_cons_zero, Option.some_inj] at hdj
        subst hdj
        exact ⟨[Op.makeVolOp minioMetaBucket, Op.listDirOp minioMetaBucket "tmp/"],
          by decide⟩
      | 1 => exact absurd rfl hj
      | 2 =>
        simp only [List.getElem?_cons_succ, List.getElem?_cons_zero,
          Option.some_inj] at hdj
        subst hdj
        exact ⟨[Op.makeVolOp minioMetaBucket, Op.listDirOp minioMetaBucket "tmp/"],
          by decide⟩
      | n + 3 => simp at hdj)

/-- C7: for two backends whose per-directory listings agree up to a
permutation of the entry order, two successful cleanup runs delete a
permutation of the same paths — the deleted-set outcome is invariant
under reordering of sibling entries. -/
theorem cleanupDir_deleted_set_perm_invariant (s₁ s₂ : StorageAPI)
    (volume dirPath : String) (fuel₁ fuel₂ : Nat) (ops₁ ops₂ : List Op)
    (hperm : ListingPerm s₁ s₂)
    (h1 : cleanupDir fuel₁ s₁ volume dirPath = some (none, ops₁))
    (h2 : cleanupDir fuel₂ s₂ volume dirPath = some (none, ops₂)) :
    (deletedPaths ops₁).Perm (deletedPaths ops₂) ∧
    ∀ x, x ∈ deletedPaths ops₁ ↔ x ∈ deletedPaths ops₂ := by
  have hp := delFunc_perm s₁ s₂ volume hperm fuel₁ fuel₂ (retainSlash dirPath)
    ops₁ ops₂ h1 h2
  exact ⟨hp, fun x => hp.mem_iff⟩

/-- Concrete instance of C7: the demo tree walked with its two sibling
orders deletes the same set of paths. -/
theorem cleanupDir_deleted_set_perm_invariant_witness :
    (deletedPaths [Op.listDirOp "v" "a/", Op.deleteFileOp "v" "a/b",
        Op.listDirOp "v" "a/c/", Op.deleteFileOp "v" "a/c/d"]).Perm
      (deletedPaths [Op.listDirOp "v" "a/", Op.listDirOp "v" "a/c/",
        Op.deleteFileOp "v" "a/c/d", Op.deleteFileOp "v" "a/b"]) ∧
    ∀ x, x ∈ deletedPaths [Op.listDirOp "v" "a/", Op.deleteFileOp "v" "a/b",
        Op.listDirOp "v" "a/c/", Op.deleteFileOp "v" "a/c/d"] ↔
      x ∈ deletedPaths [Op.listDirOp "v" "a/", Op.listDirOp "v" "a/c/",
        Op.deleteFileOp "v" "a/c/d", Op.deleteFileOp "v" "a/b"] :=
  cleanupDir_deleted_set_perm_invariant demoBackend permBackend "v" "a" 3 3
    [Op.listDirOp "v" "a/", Op.deleteFileOp "v" "a/b",
     Op.listDirOp "v" "a/c/", Op.deleteFileOp "v" "a/c/d"]
    [Op.listDirOp "v" "a/", Op.listDirOp "v" "a/c/",
     Op.deleteFileOp "v" "a/c/d", Op.deleteFileOp "v" "a/b"]
    (by
      intro v p
      by_cases ha : p = "a/"
      · subst ha
        show List.Perm ["b", "c/"] ["c/", "b"]
        decide
      · by_cases hc : p = "a/c/"
        · subst hc
          show List.Perm ["d"] ["d"]
          decide
        · have hd1 : demoBackend.listDir v p =
              Except.error StorageErr.fileNotFound := by
            simp [demoBackend, ha, hc]
          have hd2 : permBackend.listDir v p =
              Except.error StorageErr.fileNotFound := by
            simp [permBackend, ha, hc]
          rw [hd1, hd2])
    (by decide) (by decide)

/-- C8: `cleanupDir` first normalizes its root to end in the separator, so
a root with and without the trailing separator give the very same run; and
the (normalized) root is always treated as a directory — the first
operation of any completing run is the listing of the normalized root,
never a deletion. -/
theorem cleanupDir_root_normalization (fuel : Nat) (storage : StorageAPI)
    (volume p : String) :
    (hasSlashSuffix p = false →
      cleanupDir fuel storage volume p =
        cleanupDir fuel storage volume (p ++ slashSeparator)) ∧
    (∀ (r : Option StorageErr) (ops : List Op),
      cleanupDir (fuel + 1) storage volume p = some (r, ops) →
      ops.head? = some (Op.listDirOp volume (retainSlash p))) := by
  constructor
  · intro h
    unfold cleanupDir
    rw [retainSlash_of_not_suffix h,
      retainSlash_of_suffix (hasSlashSuffix_append_slash p)]
  · intro r ops h
    unfold cleanupDir at h
    have hs : hasSlashSuffix (retainSlash p) = true := hasSlashSuffix_retainSlash p
    rw [delFunc_succ, if_neg (by simp [hs])] at h
    rcases hl : storage.listDir volume (retainSlash p) with e | entries
    · rw [hl] at h
      have h' : (if e = StorageErr.fileNotFound then
            some ((none : Option StorageErr), [Op.listDirOp volume (retainSlash p)])
          else some (some e, [Op.listDirOp volume (retainSlash p)])) =
          some (r, ops) := h
      by_cases he : e = StorageErr.fileNotFound
      · rw [if_pos he] at h'
        simp only [Option.some_inj, Prod.mk.injEq] at h'
        rw [← h'.2]
        rfl
      · rw [if_neg he] at h'
        simp only [Option.some_inj, Prod.mk.injEq] at h'
        rw [← h'.2]
        rfl
    · rw [hl] at h
      have h' : (delLoop (delFunc storage volume fuel) (retainSlash p) entries).map
          (fun x => (x.1, Op.listDirOp volume (retainSlash p) :: x.2)) =
          some (r, ops) := h
      rcases hlo : delLoop (delFunc storage volume fuel) (retainSlash p) entries
          with - | ⟨r1, tail⟩
      · rw [hlo] at h'
        simp at h'
      · rw [hlo] at h'
        simp only [Option.map_some', Option.some_inj, Prod.mk.injEq] at h'
        rw [← h'.2]
        rfl

/-- Concrete instance of C8: cleaning `a` and cleaning `a/` are the same
run on the demo backend. -/
theorem cleanupDir_root_normalization_witness :
    cleanupDir 3 demoBackend "v" "a" =
      cleanupDir 3 demoBackend "v" ("a" ++ slashSeparator) :=
  (cleanupDir_root_normalization 3 demoBackend "v" "a").1 (by decide)

/-- C9: every operation a cleanup run issues targets the given volume and
a path extending the separator-normalized root — no other volume and no
path outside the root subtree is ever listed or deleted. -/
theorem cleanupDir_frame (fuel : Nat) (storage : StorageAPI)
    (volume dirPath : String) (r : Option StorageErr) (ops : List Op)
    (h : cleanupDir fuel storage volume dirPath = some (r, ops)) :
    ∀ op ∈ ops, ∃ q t,
      (op = Op.listDirOp volume q ∨ op = Op.deleteFileOp volume q) ∧
      q = retainSlash dirPath ++ t := by
  intro op hop
  rcases delFunc_ops_shape storage volume fuel (retainSlash dirPath) r ops h
      op hop with ⟨q, t, heq, hq⟩ | ⟨q, t, heq, hq, -⟩
  · exact ⟨q, t, Or.inl heq, hq⟩
  · exact ⟨q, t, Or.inr heq, hq⟩

/-- Concrete instance of C9: the deletion of `a/c/d` in the demo walk is a
delete on the cleaned volume below the normalized root `a/`. -/
theorem cleanupDir_frame_witness :
    ∃ q t, (Op.deleteFileOp "v" "a/c/d" = Op.listDirOp "v" q ∨
      Op.deleteFileOp "v" "a/c/d" = Op.deleteFileOp "v" q) ∧
      q = retainSlash "a" ++ t :=
  cleanupDir_frame 3 demoBackend "v" "a" none
    [Op.listDirOp "v" "a/", Op.deleteFileOp "v" "a/b",
     Op.listDirOp "v" "a/c/", Op.deleteFileOp "v" "a/c/d"]
    (by decide) (Op.deleteFileOp "v" "a/c/d") (by decide)

/-- C10: whenever the directory structure a backend exposes below the
cleaned volume is well-founded — witnessed by a measure on paths that
strictly decreases from every listed directory to each of its children —
the recursive walk of `cleanupDir` terminates: fuel `h(root) + 1` already
makes it return. -/
theorem cleanupDir_terminates_on_wf_tree (s : StorageAPI) (v : String)
    (h : String → Nat)
    (hdesc : ∀ p entries, hasSlashSuffix p = true →
      s.listDir v p = Except.ok entries →
      ∀ e ∈ entries, h (pathJoin p e) < h p)
    (dirPath : String) :
    ∃ r, cleanupDir (h (retainSlash dirPath) + 1) s v dirPath = some r :=
  delFunc_total_of_measure s v h hdesc (h (retainSlash dirPath) + 1)
    (retainSlash dirPath) (Nat.lt_succ_self _)

/-- Concrete instance of C10: the demo tree with its height measure
terminates within fuel 3. -/
theorem cleanupDir_terminates_on_wf_tree_witness :
    ∃ r, cleanupDir (demoHeight (retainSlash "a") + 1) demoBackend "v" "a" =
      some r :=
  cleanupDir_terminates_on_wf_tree demoBackend "v" demoHeight
    (by
      intro p entries hp hok e he
      by_cases ha : p = "a/"
      · subst ha
        have hent : ["b", "c/"] = entries := by
          simpa [demoBackend] using hok
        subst hent
        simp only [List.mem_cons, List.not_mem_nil, or_false] at he
        rcases he with he | he <;> subst he <;> decide
      · by_cases hc : p = "a/c/"
        · subst hc
          have hent : ["d"] = entries := by
            simpa [demoBackend] using hok
          subst hent
          simp only [List.mem_cons, List.not_mem_nil, or_false] at he
          subst he
          decide
        · simp [demoBackend, ha, hc] at hok)
    "a"
